import Mathlib

/-!
Verification of the P2P chess game engine (repository Dhruv54/P2P-Chess-Game).

The definitions below are a shallow embedding of the chess logic found in the
`app.js` variants of the repository (the squares are 8x8, row 0 is black's back
rank, row 7 is white's back rank).  The embedded functions mirror, statement by
statement, the JavaScript functions `initializeBoard`, `isValidMove`,
`makeMove`, `isCheck`, `findKing`, `isCheckmate`, `handleGameMessage`,
`selectSquare` and `handleSquareClick`.  DOM manipulation, sounds and network
I/O performed by those functions are not part of the game state and are
omitted; only the mutations of `gameState` (board, currentTurn, isCheck flag,
selectedSquare) are modelled.
-/

inductive Color : Type
  | white
  | black
deriving DecidableEq, Repr

inductive PieceType : Type
  | pawn
  | knight
  | bishop
  | rook
  | queen
  | king
deriving DecidableEq, Repr

/-- A chess piece: `{ type, color }` in the JavaScript source. -/
structure Piece : Type where
  type : PieceType
  color : Color
deriving DecidableEq, Repr

/-- The board is an 8x8 grid of optional pieces (`gameState.board`). -/
def Board : Type := Fin 8 → Fin 8 → Option Piece

instance : DecidableEq Board :=
  inferInstanceAs (DecidableEq (Fin 8 → Fin 8 → Option Piece))

/-- Bounds-checked board access for `Int` indices.  In the JavaScript source an
out-of-range access yields `undefined`, which behaves as an empty square. -/
def getSq (b : Board) (r c : Int) : Option Piece :=
  if hr : 0 ≤ r ∧ r < 8 then
    if hc : 0 ≤ c ∧ c < 8 then
      b ⟨r.toNat, by omega⟩ ⟨c.toNat, by omega⟩
    else none
  else none

/-- `board[r][c] = p` as a functional update. -/
def setSq (b : Board) (r c : Fin 8) (p : Option Piece) : Board :=
  fun i j => if i = r ∧ j = c then p else b i j

/-- The back-row piece layout used by `initializeBoard`. -/
def backRow : Fin 8 → PieceType
  | 0 => PieceType.rook
  | 1 => PieceType.knight
  | 2 => PieceType.bishop
  | 3 => PieceType.queen
  | 4 => PieceType.king
  | 5 => PieceType.bishop
  | 6 => PieceType.knight
  | 7 => PieceType.rook

/-- `initializeBoard`: pawns on rows 1 (black) and 6 (white), back rows on
rows 0 (black) and 7 (white). -/
def initializeBoard : Board := fun r c =>
  if r = 1 then some ⟨PieceType.pawn, Color.black⟩
  else if r = 6 then some ⟨PieceType.pawn, Color.white⟩
  else if r = 0 then some ⟨backRow c, Color.black⟩
  else if r = 7 then some ⟨backRow c, Color.white⟩
  else none

/-- Pawn direction: `-1` for white, `1` for black. -/
def direction : Color → Int
  | Color.white => -1
  | Color.black => 1

/-- Pawn starting row: `6` for white, `1` for black. -/
def startRow : Color → Int
  | Color.white => 6
  | Color.black => 1

/-- The piece-specific movement rules of `isValidMove` (the `switch` statement
on `piece.type`).  `targetSquare` is `board[toRow][toCol]`. -/
def movePattern (b : Board) (piece : Piece) (fromRow fromCol toRow toCol : Fin 8)
    (targetSquare : Option Piece) : Bool :=
  match piece.type with
  | PieceType.pawn =>
      (decide (fromCol = toCol) && targetSquare.isNone &&
        (decide ((toRow.val : Int) = (fromRow.val : Int) + direction piece.color) ||
          (decide ((fromRow.val : Int) = startRow piece.color) &&
            decide ((toRow.val : Int) = (fromRow.val : Int) + 2 * direction piece.color) &&
            (getSq b ((fromRow.val : Int) + direction piece.color) (fromCol.val : Int)).isNone)))
      ||
      (decide (((fromCol.val : Int) - (toCol.val : Int)).natAbs = 1) &&
        decide ((toRow.val : Int) = (fromRow.val : Int) + direction piece.color) &&
        targetSquare.isSome)
  | PieceType.knight =>
      decide ((((fromRow.val : Int) - (toRow.val : Int)).natAbs = 2 ∧
               ((fromCol.val : Int) - (toCol.val : Int)).natAbs = 1) ∨
              (((fromRow.val : Int) - (toRow.val : Int)).natAbs = 1 ∧
               ((fromCol.val : Int) - (toCol.val : Int)).natAbs = 2))
  | PieceType.bishop =>
      decide (((fromRow.val : Int) - (toRow.val : Int)).natAbs =
              ((fromCol.val : Int) - (toCol.val : Int)).natAbs)
  | PieceType.rook =>
      decide (fromRow = toRow ∨ fromCol = toCol)
  | PieceType.queen =>
      decide (fromRow = toRow ∨ fromCol = toCol ∨
              ((fromRow.val : Int) - (toRow.val : Int)).natAbs =
              ((fromCol.val : Int) - (toCol.val : Int)).natAbs)
  | PieceType.king =>
      decide (((fromRow.val : Int) - (toRow.val : Int)).natAbs ≤ 1 ∧
              ((fromCol.val : Int) - (toCol.val : Int)).natAbs ≤ 1)

/-- `isValidMove(fromRow, fromCol, toRow, toCol)` of the source.  The basic
validation (`from != to`, destination not occupied by a piece of the same
color) is followed by the piece-specific `movePattern`.  The source assumes a
piece stands on the from-square (all call sites guarantee it); an empty
from-square is mapped to `false` here.  The JavaScript bounds check on
`toRow`/`toCol` is vacuous for `Fin 8` coordinates. -/
def isValidMove (b : Board) (fromRow fromCol toRow toCol : Fin 8) : Bool :=
  match b fromRow fromCol with
  | none => false
  | some piece =>
      if decide (fromRow = toRow ∧ fromCol = toCol) then false
      else if (b toRow toCol).any (fun t => decide (t.color = piece.color)) then false
      else movePattern b piece fromRow fromCol toRow toCol (b toRow toCol)

/-- The mutable game state of the source (`gameState`), restricted to the
fields touched by the chess engine: `board`, `currentTurn`, `isCheck`. -/
structure GameState : Type where
  board : Board
  currentTurn : Color
  isCheck : Bool

/-- `findKing(color)`: first square (row-major) holding a king of `color`. -/
def findKing (b : Board) (color : Color) : Option (Fin 8 × Fin 8) :=
  (List.finRange 8).findSome? fun r =>
    (List.finRange 8).findSome? fun c =>
      (b r c).bind fun p =>
        if p.type = PieceType.king ∧ p.color = color then some (r, c) else none

/-- `isCheck(color)`: some enemy piece has a valid move onto the king's
square. -/
def isCheck (b : Board) (color : Color) : Bool :=
  match findKing b color with
  | none => false
  | some kp =>
      (List.finRange 8).any fun r =>
        (List.finRange 8).any fun c =>
          (b r c).any fun p =>
            decide (p.color ≠ color) && isValidMove b r c kp.1 kp.2

/-- `makeMove(fromRow, fromCol, toRow, toCol)`: move the piece, flip the turn,
recompute the `isCheck` flag for the new side to move.  (The checkmate alert
and the sounds are UI side effects with no further state mutation.) -/
def makeMove (s : GameState) (fromRow fromCol toRow toCol : Fin 8) : GameState :=
  let piece := s.board fromRow fromCol
  let board' := setSq (setSq s.board toRow toCol piece) fromRow fromCol none
  let turn' := if s.currentTurn = Color.white then Color.black else Color.white
  { board := board', currentTurn := turn', isCheck := isCheck board' turn' }

/-- The board produced by the simulate step inside `isCheckmate`
(`board[toRow][toCol] = piece; board[fromRow][fromCol] = null`). -/
def simulateMove (b : Board) (fromRow fromCol toRow toCol : Fin 8) : Board :=
  setSq (setSq b toRow toCol (b fromRow fromCol)) fromRow fromCol none

/-- The undo step inside `isCheckmate`
(`board[fromRow][fromCol] = piece; board[toRow][toCol] = tempPiece`). -/
def undoMove (b : Board) (fromRow fromCol toRow toCol : Fin 8)
    (piece tempPiece : Option Piece) : Board :=
  setSq (setSq b fromRow fromCol piece) toRow toCol tempPiece

/-- The body of the inner loops of `isCheckmate`: the move is valid and the
simulated position is no longer in check. -/
def escapesCheck (b : Board) (color : Color) (fromRow fromCol toRow toCol : Fin 8) : Bool :=
  isValidMove b fromRow fromCol toRow toCol &&
    !(isCheck (simulateMove b fromRow fromCol toRow toCol) color)

/-- The four nested loops of `isCheckmate`: some piece of `color` has a move
that escapes check. -/
def hasEscapingMove (b : Board) (color : Color) : Bool :=
  (List.finRange 8).any fun fromRow =>
    (List.finRange 8).any fun fromCol =>
      (b fromRow fromCol).any fun p =>
        decide (p.color = color) &&
          ((List.finRange 8).any fun toRow =>
            (List.finRange 8).any fun toCol =>
              escapesCheck b color fromRow fromCol toRow toCol)

/-- `isCheckmate(color)`: in check and no escaping move exists. -/
def isCheckmate (b : Board) (color : Color) : Bool :=
  if isCheck b color then !(hasEscapingMove b color) else false

/-- The initial `gameState` (fresh board, white to move, not in check). -/
def initialGameState : GameState :=
  { board := initializeBoard, currentTurn := Color.white, isCheck := false }

/-- The payload of a `move` wire message. -/
structure MoveMessage : Type where
  fromRow : Fin 8
  fromCol : Fin 8
  toRow : Fin 8
  toCol : Fin 8

/-- `handleGameMessage` for a `move` message: if it is not the local player's
turn, the received move is executed directly via `makeMove` (no legality
check). -/
def handleGameMessage (s : GameState) (playerColor : Color) (m : MoveMessage) : GameState :=
  if s.currentTurn ≠ playerColor then
    makeMove s m.fromRow m.fromCol m.toRow m.toCol
  else s

/-- The UI-level state touched by `handleSquareClick`: the game state and the
currently selected square. -/
structure UIState : Type where
  game : GameState
  selected : Option (Fin 8 × Fin 8)

/-- `selectSquare(row, col)`: record the selection (highlighting is DOM-only). -/
def selectSquare (u : UIState) (row col : Fin 8) : UIState :=
  { u with selected := some (row, col) }

/-- `handleSquareClick(row, col)`: guard on game started and own turn, then
either select a piece, or attempt the move from the selected square; a move
rejected by `isValidMove` leaves everything unchanged. -/
def handleSquareClick (playerColor : Color) (gameStarted : Bool)
    (u : UIState) (row col : Fin 8) : UIState :=
  if !gameStarted || decide (u.game.currentTurn ≠ playerColor) then u
  else
    match u.selected with
    | some sel =>
        match u.game.board row col with
        | some clickedPiece =>
            if clickedPiece.color = playerColor then
              selectSquare u row col
            else if isValidMove u.game.board sel.1 sel.2 row col then
              { game := makeMove u.game sel.1 sel.2 row col, selected := none }
            else u
        | none =>
            if isValidMove u.game.board sel.1 sel.2 row col then
              { game := makeMove u.game sel.1 sel.2 row col, selected := none }
            else u
    | none =>
        match u.game.board row col with
        | some clickedPiece =>
            if clickedPiece.color = playerColor then selectSquare u row col else u
        | none => u

/-- Square `q` holds a king of `color`. -/
def isKingSquare (b : Board) (color : Color) (q : Fin 8 × Fin 8) : Bool :=
  (b q.1 q.2).any fun p => decide (p.type = PieceType.king ∧ p.color = color)

/-- Number of kings of `color` on the board. -/
def kingCount (b : Board) (color : Color) : ℕ :=
  (Finset.univ.filter (fun q : Fin 8 × Fin 8 => isKingSquare b color q = true)).card

/-- Number of occupied squares on the board. -/
def pieceCount (b : Board) : ℕ :=
  (Finset.univ.filter (fun q : Fin 8 × Fin 8 => (b q.1 q.2).isSome = true)).card

/-- Sign of a step from `a` towards `b`. -/
def stepSgn (a b : Int) : Int :=
  if a < b then 1 else if b < a then -1 else 0

/-- `(r, c)` lies strictly between `(fr, fc)` and `(tr, tc)` on the shared
rank, file or diagonal. -/
def strictlyBetween (fr fc tr tc r c : Int) : Prop :=
  ∃ k : Fin 8, 0 < k.val ∧
    (k.val : Int) < (max (tr - fr).natAbs (tc - fc).natAbs : ℕ) ∧
    r = fr + (k.val : Int) * stepSgn fr tr ∧
    c = fc + (k.val : Int) * stepSgn fc tc

instance (fr fc tr tc r c : Int) : Decidable (strictlyBetween fr fc tr tc r c) := by
  unfold strictlyBetween
  infer_instance

/-- The alignment condition that `isValidMove` tests for a sliding piece, and
`False` for the other piece types. -/
def alignedFor (t : PieceType) (fromRow fromCol toRow toCol : Fin 8) : Prop :=
  match t with
  | PieceType.bishop =>
      ((fromRow.val : Int) - (toRow.val : Int)).natAbs =
      ((fromCol.val : Int) - (toCol.val : Int)).natAbs
  | PieceType.rook => fromRow = toRow ∨ fromCol = toCol
  | PieceType.queen =>
      fromRow = toRow ∨ fromCol = toCol ∨
      ((fromRow.val : Int) - (toRow.val : Int)).natAbs =
      ((fromCol.val : Int) - (toCol.val : Int)).natAbs
  | _ => False

/-- Game states reachable from the initial state by moves of the side to move
that are accepted by `isValidMove` (the pipeline used for local moves). -/
inductive Reachable : GameState → Prop
  | init : Reachable initialGameState
  | step (s : GameState) (fromRow fromCol toRow toCol : Fin 8) :
      Reachable s →
      ((s.board fromRow fromCol).any fun p => decide (p.color = s.currentTurn)) = true →
      isValidMove s.board fromRow fromCol toRow toCol = true →
      Reachable (makeMove s fromRow fromCol toRow toCol)

lemma option_any_iff {α : Type} (f : α → Bool) (o : Option α) :
    o.any f = true ↔ ∃ a, o = some a ∧ f a = true := by
  cases o <;> simp [Option.any]

lemma isCheck_iff (b : Board) (color : Color) :
    isCheck b color = true ↔
      ∃ kp : Fin 8 × Fin 8, findKing b color = some kp ∧
        ∃ r c : Fin 8, ∃ p : Piece, b r c = some p ∧ p.color ≠ color ∧
          isValidMove b r c kp.1 kp.2 = true := by
  unfold isCheck
  cases hf : findKing b color with
  | none => simp
  | some kp =>
      simp only [Option.some.injEq]
      constructor
      · intro h
        rw [List.any_eq_true] at h
        obtain ⟨r, -, h⟩ := h
        rw [List.any_eq_true] at h
        obtain ⟨c, -, h⟩ := h
        rw [option_any_iff] at h
        obtain ⟨p, hp, h⟩ := h
        rw [Bool.and_eq_true, decide_eq_true_eq] at h
        exact ⟨kp, rfl, r, c, p, hp, h.1, h.2⟩
      · rintro ⟨kp', hkp', r, c, p, hp, hcol, hv⟩
        subst hkp'
        rw [List.any_eq_true]
        refine ⟨r, List.mem_finRange r, ?_⟩
        rw [List.any_eq_true]
        refine ⟨c, List.mem_finRange c, ?_⟩
        rw [option_any_iff]
        refine ⟨p, hp, ?_⟩
        rw [Bool.and_eq_true, decide_eq_true_eq]
        exact ⟨hcol, hv⟩

lemma hasEscapingMove_iff (b : Board) (color : Color) :
    hasEscapingMove b color = true ↔
      ∃ fr fc tr tc : Fin 8, ∃ p : Piece, b fr fc = some p ∧ p.color = color ∧
        escapesCheck b color fr fc tr tc = true := by
  unfold hasEscapingMove
  constructor
  · intro h
    rw [List.any_eq_true] at h
    obtain ⟨fr, -, h⟩ := h
    rw [List.any_eq_true] at h
    obtain ⟨fc, -, h⟩ := h
    rw [option_any_iff] at h
    obtain ⟨p, hp, h⟩ := h
    rw [Bool.and_eq_true, decide_eq_true_eq] at h
    obtain ⟨hcol, h⟩ := h
    rw [List.any_eq_true] at h
    obtain ⟨tr, -, h⟩ := h
    rw [List.any_eq_true] at h
    obtain ⟨tc, -, h⟩ := h
    exact ⟨fr, fc, tr, tc, p, hp, hcol, h⟩
  · rintro ⟨fr, fc, tr, tc, p, hp, hcol, h⟩
    rw [List.any_eq_true]
    refine ⟨fr, List.mem_finRange fr, ?_⟩
    rw [List.any_eq_true]
    refine ⟨fc, List.mem_finRange fc, ?_⟩
    rw [option_any_iff]
    refine ⟨p, hp, ?_⟩
    rw [Bool.and_eq_true, decide_eq_true_eq]
    refine ⟨hcol, ?_⟩
    rw [List.any_eq_true]
    refine ⟨tr, List.mem_finRange tr, ?_⟩
    rw [List.any_eq_true]
    exact ⟨tc, List.mem_finRange tc, h⟩

/-- C5: `isCheckmate(color)` returns true if and only if `isCheck(color)` is
true and no move of a piece of `color` accepted by `isValidMove` leads, after
the simulate step used inside the search, to a position in which `color` is
not in check. -/
theorem checkmate_iff_check_and_no_escape (b : Board) (color : Color) :
    isCheckmate b color = true ↔
      (isCheck b color = true ∧
        ∀ fr fc tr tc : Fin 8, ∀ p : Piece,
          b fr fc = some p → p.color = color →
          isValidMove b fr fc tr tc = true →
          isCheck (simulateMove b fr fc tr tc) color = true) := by
  unfold isCheckmate
  cases hc : isCheck b color with
  | false => simp
  | true =>
      simp only [if_true, Bool.not_eq_true', true_and]
      constructor
      · intro h fr fc tr tc p hp hcol hv
        by_contra hnc
        have hsim : isCheck (simulateMove b fr fc tr tc) color = false := by
          cases hx : isCheck (simulateMove b fr fc tr tc) color with
          | false => rfl
          | true => exact absurd hx hnc
        have hesc : escapesCheck b color fr fc tr tc = true := by
          unfold escapesCheck
          rw [hv, hsim]
          rfl
        have hh : hasEscapingMove b color = true :=
          (hasEscapingMove_iff b color).mpr ⟨fr, fc, tr, tc, p, hp, hcol, hesc⟩
        rw [hh] at h
        exact Bool.noConfusion h
      · intro hall
        cases hx : hasEscapingMove b color with
        | false => rfl
        | true =>
            obtain ⟨fr, fc, tr, tc, p, hp, hcol, hesc⟩ := (hasEscapingMove_iff b color).mp hx
            unfold escapesCheck at hesc
            rw [Bool.and_eq_true] at hesc
            obtain ⟨hv, hnc⟩ := hesc
            rw [Bool.not_eq_true'] at hnc
            rw [hall fr fc tr tc p hp hcol hv] at hnc
            exact Bool.noConfusion hnc

/-- C6: the simulate-then-undo sequence used inside the checkmate search
(`board[to] = piece; board[from] = null`, then `board[from] = piece;
board[to] = tempPiece` with `piece = board[from]` and
`tempPiece = board[to]`) restores the board exactly. -/
theorem simulate_undo_roundtrip (b : Board) (fr fc tr tc : Fin 8) :
    undoMove (simulateMove b fr fc tr tc) fr fc tr tc (b fr fc) (b tr tc) = b := by
  funext r c
  unfold undoMove simulateMove setSq
  by_cases h1 : r = tr ∧ c = tc
  · obtain ⟨h1r, h1c⟩ := h1
    subst h1r; subst h1c
    simp
  · rw [if_neg h1]
    by_cases h2 : r = fr ∧ c = fc
    · obtain ⟨h2r, h2c⟩ := h2
      subst h2r; subst h2c
      simp
    · rw [if_neg h2, if_neg h2, if_neg h1]

lemma isValidMove_some (b : Board) (fr fc tr tc : Fin 8) (p : Piece) (hp : b fr fc = some p) :
    isValidMove b fr fc tr tc =
      (if decide (fr = tr ∧ fc = tc) then false
       else if (b tr tc).any (fun t => decide (t.color = p.color)) then false
       else movePattern b p fr fc tr tc (b tr tc)) := by
  unfold isValidMove
  rw [hp]

/-- C10: in any position with the white king on `(7,4)` and a white rook on
`(7,7)`, the kingside squares `(7,5)` and `(7,6)` empty and the white king in
check, `isValidMove` rejects the castling move `(7,4) -> (7,6)` (the king rule
only allows a one-square displacement, so the move is rejected in this
scenario — indeed in every scenario). -/
theorem castlingMoveRejected (b : Board)
    (hking : b 7 4 = some ⟨PieceType.king, Color.white⟩)
    (_hrook : b 7 7 = some ⟨PieceType.rook, Color.white⟩)
    (_h5 : b 7 5 = none) (h6 : b 7 6 = none)
    (_hcheck : isCheck b Color.white = true) :
    isValidMove b 7 4 7 6 = false := by
  rw [isValidMove_some b 7 4 7 6 ⟨PieceType.king, Color.white⟩ hking, h6]
  simp [movePattern]
  decide

/-- A board realizing the C10 scenario: unmoved white king and kingside rook,
empty squares between them, and a black rook giving check down the e-file. -/
def castleBoard : Board := fun r c =>
  if r = 7 ∧ c = 4 then some ⟨PieceType.king, Color.white⟩
  else if r = 7 ∧ c = 7 then some ⟨PieceType.rook, Color.white⟩
  else if r = 0 ∧ c = 4 then some ⟨PieceType.rook, Color.black⟩
  else if r = 0 ∧ c = 0 then some ⟨PieceType.king, Color.black⟩
  else none

/-- C10 witness: `castlingMoveRejected` applied to `castleBoard`. -/
theorem castlingMoveRejected_witness :
    isCheck castleBoard Color.white = true ∧
    isValidMove castleBoard 7 4 7 6 = false :=
  ⟨by decide,
   castlingMoveRejected castleBoard (by decide) (by decide) (by decide) (by decide) (by decide)⟩

instance (t : PieceType) (a b c d : Fin 8) : Decidable (alignedFor t a b c d) := by
  unfold alignedFor
  cases t <;> infer_instance

/-- C2 (amended): for a bishop, rook or queen, `isValidMove` checks only the
alignment of `from` and `to` (shared diagonal, rank or file); any move passing
the basic checks is accepted regardless of pieces on the squares strictly
between. -/
theorem slider_ignores_blockers (b : Board) (fr fc tr tc : Fin 8) (p : Piece)
    (hp : b fr fc = some p)
    (hgeom : alignedFor p.type fr fc tr tc)
    (hne : ¬(fr = tr ∧ fc = tc))
    (htarget : ∀ q : Piece, b tr tc = some q → q.color ≠ p.color) :
    isValidMove b fr fc tr tc = true := by
  rw [isValidMove_some b fr fc tr tc p hp]
  rw [if_neg (by simp only [decide_eq_true_eq]; exact hne)]
  have htcond : ((b tr tc).any fun t => decide (t.color = p.color)) = false := by
    cases hq : b tr tc with
    | none => rfl
    | some q =>
        show decide (q.color = p.color) = false
        exact decide_eq_false (htarget q hq)
  rw [if_neg (by rw [htcond]; exact Bool.noConfusion)]
  obtain ⟨pt, pcol⟩ := p
  cases pt with
  | bishop => exact decide_eq_true hgeom
  | rook => exact decide_eq_true hgeom
  | queen => exact decide_eq_true hgeom
  | pawn => exact hgeom.elim
  | knight => exact hgeom.elim
  | king => exact hgeom.elim

/-- C2 counterexample: on the initial board the white bishop move
`(7,2) -> (5,0)` jumps over the occupied square `(6,1)` (a white pawn, a
square strictly between the endpoints), yet `isValidMove` accepts it. -/
theorem blockedBishopAccepted :
    initializeBoard 7 2 = some ⟨PieceType.bishop, Color.white⟩ ∧
    strictlyBetween 7 2 5 0 6 1 ∧
    (initializeBoard 6 1).isSome = true ∧
    isValidMove initializeBoard 7 2 5 0 = true := by decide

/-- C2 witness: `slider_ignores_blockers` applied to the blocked bishop move
of the initial board. -/
theorem slider_ignores_blockers_witness :
    initializeBoard 7 2 = some ⟨PieceType.bishop, Color.white⟩ ∧
    isValidMove initializeBoard 7 2 5 0 = true := by
  refine ⟨by decide, ?_⟩
  refine slider_ignores_blockers initializeBoard 7 2 5 0 ⟨PieceType.bishop, Color.white⟩
    (by decide) (by decide) (by decide) ?_
  intro q hq
  have h0 : initializeBoard 5 0 = none := by decide
  rw [h0] at hq
  exact Option.noConfusion hq

/-- C7 (amended): a pawn's diagonal one-square forward move is accepted by
`isValidMove` exactly when the destination square holds an enemy piece; there
is no en-passant case. -/
theorem pawn_diagonal_iff_enemy_target (b : Board) (fr fc tr tc : Fin 8) (pcol : Color)
    (hp : b fr fc = some ⟨PieceType.pawn, pcol⟩)
    (hdiag : ((fc.val : Int) - (tc.val : Int)).natAbs = 1)
    (hfwd : (tr.val : Int) = (fr.val : Int) + direction pcol) :
    (isValidMove b fr fc tr tc = true ↔ ∃ q : Piece, b tr tc = some q ∧ q.color ≠ pcol) := by
  have hfc : ¬(fc = tc) := by
    intro h
    subst h
    simp at hdiag
  rw [isValidMove_some b fr fc tr tc ⟨PieceType.pawn, pcol⟩ hp]
  rw [if_neg (by simp only [decide_eq_true_eq]; exact fun h => hfc h.2)]
  cases hq : b tr tc with
  | none =>
      constructor
      · intro h
        exfalso
        rw [if_neg (by exact Bool.noConfusion)] at h
        unfold movePattern at h
        simp only [decide_eq_false hfc, Bool.false_and, Bool.false_or,
          Option.isSome_none, Bool.and_false] at h
        exact Bool.noConfusion h
      · rintro ⟨q, hq', -⟩
        exact Option.noConfusion hq'
  | some q =>
      by_cases hqc : q.color = pcol
      · rw [if_pos (by show decide (q.color = pcol) = true; exact decide_eq_true hqc)]
        constructor
        · intro h
          exact Bool.noConfusion h
        · rintro ⟨q', hq', hne'⟩
          injection hq' with hqq
          subst hqq
          exact absurd hqc hne'
      · rw [if_neg (by show ¬(decide (q.color = pcol) = true); simp [hqc])]
        constructor
        · intro h
          exact ⟨q, rfl, hqc⟩
        · intro h
          unfold movePattern
          simp only [decide_eq_true hdiag, decide_eq_true hfwd, Option.isSome_some,
            Bool.and_true, Bool.true_and, Bool.or_true]

/-- A position in which an en-passant capture would arise: white pawn on its
start square `(6,4)`, black pawn on `(4,3)`, white to move. -/
def epBoard : Board := fun r c =>
  if r = 7 ∧ c = 4 then some ⟨PieceType.king, Color.white⟩
  else if r = 0 ∧ c = 4 then some ⟨PieceType.king, Color.black⟩
  else if r = 6 ∧ c = 4 then some ⟨PieceType.pawn, Color.white⟩
  else if r = 4 ∧ c = 3 then some ⟨PieceType.pawn, Color.black⟩
  else none

def epState : GameState := { board := epBoard, currentTurn := Color.white, isCheck := false }

/-- The state immediately after white's two-square pawn advance `(6,4) -> (4,4)`. -/
def epAfter : GameState := makeMove epState 6 4 4 4

/-- C7 counterexample: immediately after white's two-square pawn advance
`(6,4) -> (4,4)` the square `(5,4)` passed over is the en-passant target of
the claim, yet the black pawn's diagonal move `(4,3) -> (5,4)` onto it is
rejected (the destination is empty and the engine knows no en passant). -/
theorem enPassantRejected :
    isValidMove epState.board 6 4 4 4 = true ∧
    epAfter.currentTurn = Color.black ∧
    epAfter.board 4 3 = some ⟨PieceType.pawn, Color.black⟩ ∧
    epAfter.board 4 4 = some ⟨PieceType.pawn, Color.white⟩ ∧
    epAfter.board 5 4 = none ∧
    isValidMove epAfter.board 4 3 5 4 = false := by decide

/-- A position with an ordinary diagonal pawn capture available. -/
def captureBoard : Board := fun r c =>
  if r = 7 ∧ c = 4 then some ⟨PieceType.king, Color.white⟩
  else if r = 0 ∧ c = 4 then some ⟨PieceType.king, Color.black⟩
  else if r = 6 ∧ c = 4 then some ⟨PieceType.pawn, Color.white⟩
  else if r = 5 ∧ c = 5 then some ⟨PieceType.knight, Color.black⟩
  else none

/-- C7 witness: `pawn_diagonal_iff_enemy_target` applied to a concrete
diagonal capture. -/
theorem pawn_diagonal_iff_enemy_target_witness :
    captureBoard 6 4 = some ⟨PieceType.pawn, Color.white⟩ ∧
    captureBoard 5 5 = some ⟨PieceType.knight, Color.black⟩ ∧
    isValidMove captureBoard 6 4 5 5 = true := by
  refine ⟨by decide, by decide, ?_⟩
  refine (pawn_diagonal_iff_enemy_target captureBoard 6 4 5 5 Color.white
    (by decide) (by decide) (by decide)).mpr ?_
  exact ⟨⟨PieceType.knight, Color.black⟩, by decide, by decide⟩

/-- A position with the white rook on `(6,4)` pinned against the white king on
`(7,4)` by the black rook on `(0,4)`. -/
def pinBoard : Board := fun r c =>
  if r = 7 ∧ c = 4 then some ⟨PieceType.king, Color.white⟩
  else if r = 6 ∧ c = 4 then some ⟨PieceType.rook, Color.white⟩
  else if r = 0 ∧ c = 4 then some ⟨PieceType.rook, Color.black⟩
  else if r = 0 ∧ c = 0 then some ⟨PieceType.king, Color.black⟩
  else none

/-- C1 counterexample: the geometrically valid rook move `(6,4) -> (6,0)` of
the pinned white rook leaves the white king attacked by the black rook after
its application, yet `isValidMove` returns true. -/
theorem pinnedMoveAccepted :
    pinBoard 6 4 = some ⟨PieceType.rook, Color.white⟩ ∧
    alignedFor PieceType.rook 6 4 6 0 ∧
    isValidMove pinBoard 6 4 6 0 = true ∧
    isCheck (simulateMove pinBoard 6 4 6 0) Color.white = true := by decide

/-- C1 (amended): `isValidMove` performs no king-safety simulation: there are
positions and moves accepted by it whose application leaves the moving side's
own king attacked. -/
theorem kingSafetyNotChecked :
    ∃ (b : Board) (fr fc tr tc : Fin 8) (p : Piece),
      b fr fc = some p ∧
      isValidMove b fr fc tr tc = true ∧
      isCheck (simulateMove b fr fc tr tc) p.color = true :=
  ⟨pinBoard, 6, 4, 6, 0, ⟨PieceType.rook, Color.white⟩, by decide, by decide, by decide⟩

/-- A received move message that is illegal for every piece: `(0,0) -> (4,4)`
is neither a rook move nor anything else from the initial position. -/
def badMessage : MoveMessage := { fromRow := 0, fromCol := 0, toRow := 4, toCol := 4 }

/-- C3 counterexample: the received move `(0,0) -> (4,4)` is rejected by the
local legality check, yet `handleGameMessage` executes it and mutates the
board (the black rook teleports to `(4,4)`); no legality check is run and no
error is surfaced. -/
theorem receivedIllegalMoveExecuted :
    isValidMove initialGameState.board 0 0 4 4 = false ∧
    (handleGameMessage initialGameState Color.black badMessage).board 4 4 =
      some ⟨PieceType.rook, Color.black⟩ ∧
    initialGameState.board 4 4 = none ∧
    (handleGameMessage initialGameState Color.black badMessage).board ≠
      initialGameState.board := by decide

/-- C3 (amended): whenever it is not the local player's turn, the receiving
side executes a received move directly via `makeMove`, without running
`isValidMove`. -/
theorem receivedMoveNotRevalidated (s : GameState) (playerColor : Color) (m : MoveMessage)
    (h : s.currentTurn ≠ playerColor) :
    handleGameMessage s playerColor m = makeMove s m.fromRow m.fromCol m.toRow m.toCol := by
  unfold handleGameMessage
  rw [if_pos h]

/-- C3 witness: `receivedMoveNotRevalidated` applied to the initial state and
the illegal message. -/
theorem receivedMoveNotRevalidated_witness :
    initialGameState.currentTurn ≠ Color.black ∧
    handleGameMessage initialGameState Color.black badMessage =
      makeMove initialGameState 0 0 4 4 :=
  ⟨by decide, receivedMoveNotRevalidated initialGameState Color.black badMessage (by decide)⟩

/-- C9: a click proposing a move from the selected square that `isValidMove`
rejects leaves the whole state (game state and selection) unchanged, and a
second identical click is rejected identically, again without any change. -/
theorem rejectedMoveNoMutation (playerColor : Color) (gameStarted : Bool)
    (u : UIState) (row col : Fin 8) (sel : Fin 8 × Fin 8)
    (hsel : u.selected = some sel)
    (hnotown : ∀ p : Piece, u.game.board row col = some p → p.color ≠ playerColor)
    (hinvalid : isValidMove u.game.board sel.1 sel.2 row col = false) :
    handleSquareClick playerColor gameStarted u row col = u ∧
    handleSquareClick playerColor gameStarted
      (handleSquareClick playerColor gameStarted u row col) row col = u := by
  have h1 : handleSquareClick playerColor gameStarted u row col = u := by
    unfold handleSquareClick
    by_cases hg : (!gameStarted || decide (u.game.currentTurn ≠ playerColor)) = true
    · rw [if_pos hg]
    · rw [if_neg hg, hsel]
      cases hb : u.game.board row col with
      | none => simp only [hinvalid, Bool.false_eq_true, if_false]
      | some p => simp only [hnotown p hb, if_false, hinvalid, Bool.false_eq_true, ite_false]
  exact ⟨h1, by rw [h1, h1]⟩

/-- The initial game with the white queenside rook selected. -/
def clickUI : UIState := { game := initialGameState, selected := some (7, 0) }

/-- C9 witness: clicking `(4,4)` with the rook on `(7,0)` selected proposes an
illegal move; `rejectedMoveNoMutation` shows both clicks leave the state
unchanged. -/
theorem rejectedMoveNoMutation_witness :
    clickUI.selected = some ((7 : Fin 8), (0 : Fin 8)) ∧
    isValidMove clickUI.game.board 7 0 4 4 = false ∧
    handleSquareClick Color.white true clickUI 4 4 = clickUI ∧
    handleSquareClick Color.white true
      (handleSquareClick Color.white true clickUI 4 4) 4 4 = clickUI := by
  have hnotown : ∀ p : Piece, clickUI.game.board 4 4 = some p → p.color ≠ Color.white := by
    intro p hp
    have h0 : clickUI.game.board 4 4 = none := by decide
    rw [h0] at hp
    exact Option.noConfusion hp
  have h := rejectedMoveNoMutation Color.white true clickUI 4 4 (7, 0) rfl hnotown (by decide)
  exact ⟨rfl, by decide, h.1, h.2⟩

lemma king_valid_geometry (b : Board) (fr fc tr tc : Fin 8) (col : Color)
    (hp : b fr fc = some ⟨PieceType.king, col⟩)
    (h : isValidMove b fr fc tr tc = true) :
    ¬(fr = tr ∧ fc = tc) ∧
    ((fr.val : Int) - (tr.val : Int)).natAbs ≤ 1 ∧
    ((fc.val : Int) - (tc.val : Int)).natAbs ≤ 1 := by
  rw [isValidMove_some b fr fc tr tc ⟨PieceType.king, col⟩ hp] at h
  dsimp only [movePattern] at h
  by_cases h1 : fr = tr ∧ fc = tc
  · rw [if_pos (decide_eq_true h1)] at h
    exact Bool.noConfusion h
  · rw [if_neg (by simp only [decide_eq_true_eq]; exact h1)] at h
    by_cases h2 : ((b tr tc).any fun t => decide (t.color = col)) = true
    · rw [if_pos h2] at h
      exact Bool.noConfusion h
    · rw [if_neg h2] at h
      rw [decide_eq_true_eq] at h
      exact ⟨h1, h.1, h.2⟩

lemma king_valid_intro (b : Board) (fr fc tr tc : Fin 8) (col : Color)
    (hp : b fr fc = some ⟨PieceType.king, col⟩)
    (hne : ¬(fr = tr ∧ fc = tc))
    (htarget : ∀ q : Piece, b tr tc = some q → q.color ≠ col)
    (h1 : ((fr.val : Int) - (tr.val : Int)).natAbs ≤ 1)
    (h2 : ((fc.val : Int) - (tc.val : Int)).natAbs ≤ 1) :
    isValidMove b fr fc tr tc = true := by
  rw [isValidMove_some b fr fc tr tc ⟨PieceType.king, col⟩ hp]
  dsimp only [movePattern]
  rw [if_neg (by simp only [decide_eq_true_eq]; exact hne)]
  have hc : ((b tr tc).any fun t => decide (t.color = col)) = false := by
    cases hq : b tr tc with
    | none => rfl
    | some q => exact decide_eq_false (htarget q hq)
  rw [if_neg (by rw [hc]; exact Bool.noConfusion)]
  exact decide_eq_true ⟨h1, h2⟩

lemma findKing_spec (b : Board) (color : Color) (kp : Fin 8 × Fin 8)
    (h : findKing b color = some kp) :
    ∃ p : Piece, b kp.1 kp.2 = some p ∧ p.type = PieceType.king ∧ p.color = color := by
  unfold findKing at h
  obtain ⟨r, -, hr⟩ := List.exists_of_findSome?_eq_some h
  obtain ⟨c, -, hc⟩ := List.exists_of_findSome?_eq_some hr
  cases hb : b r c with
  | none =>
      rw [hb] at hc
      exact Option.noConfusion hc
  | some p =>
      rw [hb] at hc
      dsimp only [Option.bind] at hc
      by_cases hcond : p.type = PieceType.king ∧ p.color = color
      · rw [if_pos hcond] at hc
        injection hc with hkp
        subst hkp
        exact ⟨p, hb, hcond.1, hcond.2⟩
      · rw [if_neg hcond] at hc
        exact Option.noConfusion hc

lemma isCheck_false_of_no_enemy (b : Board) (color : Color)
    (h : ∀ r c : Fin 8, ∀ p : Piece, b r c = some p → p.color = color) :
    isCheck b color = false := by
  cases hx : isCheck b color with
  | false => rfl
  | true =>
      obtain ⟨kp, -, r, c, p, hp, hpc, -⟩ := (isCheck_iff b color).mp hx
      exact absurd (h r c p hp) hpc

lemma twoKings_aux (b : Board) (color ecol : Color) (o e : Fin 8 × Fin 8)
    (hcol : ecol ≠ color)
    (hown : b o.1 o.2 = some ⟨PieceType.king, color⟩)
    (henemy : b e.1 e.2 = some ⟨PieceType.king, ecol⟩)
    (hothers : ∀ r c : Fin 8, (r, c) ≠ o → (r, c) ≠ e → b r c = none) :
    isCheckmate b color = false := by
  obtain ⟨o1, o2⟩ := o
  obtain ⟨e1, e2⟩ := e
  dsimp only at hown henemy
  cases hc : isCheck b color with
  | false => simp [isCheckmate, hc]
  | true =>
      obtain ⟨kp, hkp, r, c, p, hp, hpc, hval⟩ := (isCheck_iff b color).mp hc
      have hkpo : kp = (o1, o2) := by
        obtain ⟨p', hp', ht', hc'⟩ := findKing_spec b color kp hkp
        by_cases hke : kp = (e1, e2)
        · rw [hke] at hp'
          dsimp only at hp'
          rw [henemy] at hp'
          injection hp' with hpp
          rw [← hpp] at hc'
          exact absurd hc' hcol
        · by_contra hno
          have h0 := hothers kp.1 kp.2 (fun hh => hno hh) (fun hh => hke hh)
          rw [h0] at hp'
          exact Option.noConfusion hp'
      rw [hkpo] at hval
      dsimp only at hval
      have hre : r = e1 ∧ c = e2 := by
        by_contra hno
        have hne2 : ((r, c) : Fin 8 × Fin 8) ≠ (e1, e2) := fun hh =>
          hno ⟨congrArg Prod.fst hh, congrArg Prod.snd hh⟩
        by_cases hro : ((r, c) : Fin 8 × Fin 8) = (o1, o2)
        · have hx1 : r = o1 := congrArg Prod.fst hro
          have hx2 : c = o2 := congrArg Prod.snd hro
          rw [hx1, hx2, hown] at hp
          injection hp with hpp
          rw [← hpp] at hpc
          exact hpc rfl
        · have h0 := hothers r c hro hne2
          rw [h0] at hp
          exact Option.noConfusion hp
      obtain ⟨hre1, hre2⟩ := hre
      rw [hre1, hre2] at hp hval
      rw [henemy] at hp
      injection hp with hpp
      subst hpp
      obtain ⟨hne, hr1, hr2⟩ := king_valid_geometry b e1 e2 o1 o2 ecol henemy hval
      have hvalid2 : isValidMove b o1 o2 e1 e2 = true := by
        apply king_valid_intro b o1 o2 e1 e2 color hown
        · intro hh
          exact hne ⟨hh.1.symm, hh.2.symm⟩
        · intro q hq
          rw [henemy] at hq
          injection hq with hqq
          rw [← hqq]
          exact hcol
        · rw [show ((o1.val : Int) - (e1.val : Int)) = -((e1.val : Int) - (o1.val : Int)) by ring,
            Int.natAbs_neg]
          exact hr1
        · rw [show ((o2.val : Int) - (e2.val : Int)) = -((e2.val : Int) - (o2.val : Int)) by ring,
            Int.natAbs_neg]
          exact hr2
      have hnoenemy : ∀ r' c' : Fin 8, ∀ q : Piece,
          simulateMove b o1 o2 e1 e2 r' c' = some q → q.color = color := by
        intro r' c' q hq
        simp only [simulateMove, setSq] at hq
        by_cases hx1 : r' = o1 ∧ c' = o2
        · rw [if_pos hx1] at hq
          exact Option.noConfusion hq
        · rw [if_neg hx1] at hq
          by_cases hx2 : r' = e1 ∧ c' = e2
          · rw [if_pos hx2] at hq
            rw [hown] at hq
            injection hq with hqq
            rw [← hqq]
          · rw [if_neg hx2] at hq
            have hny1 : ((r', c') : Fin 8 × Fin 8) ≠ (o1, o2) := fun hh =>
              hx1 ⟨congrArg Prod.fst hh, congrArg Prod.snd hh⟩
            have hny2 : ((r', c') : Fin 8 × Fin 8) ≠ (e1, e2) := fun hh =>
              hx2 ⟨congrArg Prod.fst hh, congrArg Prod.snd hh⟩
            rw [hothers r' c' hny1 hny2] at hq
            exact Option.noConfusion hq
      have hstill : isCheck (simulateMove b o1 o2 e1 e2) color = false :=
        isCheck_false_of_no_enemy _ color hnoenemy
      have hesc : escapesCheck b color o1 o2 e1 e2 = true := by
        unfold escapesCheck
        rw [hvalid2, hstill]
        rfl
      have hhe : hasEscapingMove b color = true :=
        (hasEscapingMove_iff b color).mpr
          ⟨o1, o2, e1, e2, ⟨PieceType.king, color⟩, hown, rfl, hesc⟩
      simp [isCheckmate, hc, hhe]

/-- C8 (amended): on any board holding exactly the two kings, the post-move
game-end evaluation reports no termination for either side to move —
`isCheckmate` is false (the code performs no insufficient-material or
dead-position detection, so no draw is ever reported and the game simply
continues). -/
theorem twoKings_no_checkmate (b : Board) (color : Color) (w k : Fin 8 × Fin 8)
    (hw : b w.1 w.2 = some ⟨PieceType.king, Color.white⟩)
    (hk : b k.1 k.2 = some ⟨PieceType.king, Color.black⟩)
    (hothers : ∀ r c : Fin 8, (r, c) ≠ w → (r, c) ≠ k → b r c = none) :
    isCheckmate b color = false := by
  cases color with
  | white =>
      exact twoKings_aux b Color.white Color.black w k (by decide) hw hk hothers
  | black =>
      exact twoKings_aux b Color.black Color.white k w (by decide) hk hw
        (fun r c h1 h2 => hothers r c h2 h1)

/-- A position in which white's next move captures the last non-king piece. -/
def drawBoard : Board := fun r c =>
  if r = 7 ∧ c = 4 then some ⟨PieceType.king, Color.white⟩
  else if r = 0 ∧ c = 4 then some ⟨PieceType.king, Color.black⟩
  else if r = 6 ∧ c = 5 then some ⟨PieceType.rook, Color.black⟩
  else none

def drawState : GameState := { board := drawBoard, currentTurn := Color.white, isCheck := false }

/-- The state after the accepted capture `(7,4) -> (6,5)`, leaving two kings. -/
def afterCapture : GameState := makeMove drawState 7 4 6 5

/-- C8 counterexample: an accepted move leaves only the two kings on the
board, and the game-end evaluation run by `makeMove` on the new side to move
(the `isCheck` / `isCheckmate` block — the only termination check the code
has) reports nothing: no check, no checkmate, and in particular no draw by
insufficient material. -/
theorem twoKingsNoDrawReported :
    isValidMove drawState.board 7 4 6 5 = true ∧
    pieceCount afterCapture.board = 2 ∧
    kingCount afterCapture.board Color.white = 1 ∧
    kingCount afterCapture.board Color.black = 1 ∧
    afterCapture.isCheck = false ∧
    isCheckmate afterCapture.board afterCapture.currentTurn = false := by decide

/-- C8 witness: `twoKings_no_checkmate` applied to the two-king board reached
by the capture. -/
theorem twoKings_no_checkmate_witness :
    afterCapture.board 6 5 = some ⟨PieceType.king, Color.white⟩ ∧
    afterCapture.board 0 4 = some ⟨PieceType.king, Color.black⟩ ∧
    isCheckmate afterCapture.board Color.black = false :=
  ⟨by decide, by decide,
   twoKings_no_checkmate afterCapture.board Color.black (6, 5) (0, 4)
     (by decide) (by decide) (by decide)⟩

lemma setSq_eq (b : Board) (r c : Fin 8) (p : Option Piece) : setSq b r c p r c = p := by
  unfold setSq
  rw [if_pos ⟨rfl, rfl⟩]

lemma setSq_ne (b : Board) (r c i j : Fin 8) (p : Option Piece) (h : ¬(i = r ∧ j = c)) :
    setSq b r c p i j = b i j := by
  unfold setSq
  rw [if_neg h]

lemma kingCount_makeMove_le (s : GameState) (fr fc tr tc : Fin 8) (color : Color) :
    kingCount (makeMove s fr fc tr tc).board color ≤ kingCount s.board color := by
  classical
  have hboard : (makeMove s fr fc tr tc).board =
      setSq (setSq s.board tr tc (s.board fr fc)) fr fc none := rfl
  set b := s.board with hb
  set b' := setSq (setSq b tr tc (b fr fc)) fr fc none with hb'
  rw [kingCount, kingCount, hboard]
  have hfrom : b' fr fc = none := setSq_eq _ fr fc none
  have hfromKS : isKingSquare b' color (fr, fc) = false := by
    unfold isKingSquare
    rw [hfrom]
    rfl
  apply Finset.card_le_card_of_injOn (fun q => if q = (tr, tc) then (fr, fc) else q)
  · intro q hq
    rw [Finset.mem_filter] at hq
    obtain ⟨-, hq2⟩ := hq
    rw [Finset.mem_filter]
    refine ⟨Finset.mem_univ _, ?_⟩
    by_cases hqt : q = (tr, tc)
    · subst hqt
      rw [if_pos rfl]
      by_cases htf : tr = fr ∧ tc = fc
      · exfalso
        have hnone : b' tr tc = none := by
          rw [hb']
          unfold setSq
          rw [if_pos htf]
        unfold isKingSquare at hq2
        rw [hnone] at hq2
        exact Bool.noConfusion hq2
      · have hbt : b' tr tc = b fr fc := by
          rw [hb']
          rw [setSq_ne _ fr fc tr tc none htf, setSq_eq]
        unfold isKingSquare at hq2 ⊢
        rw [hbt] at hq2
        exact hq2
    · rw [if_neg hqt]
      by_cases hqf : q = (fr, fc)
      · exfalso
        subst hqf
        rw [hfromKS] at hq2
        exact Bool.noConfusion hq2
      · have hqb : b' q.1 q.2 = b q.1 q.2 := by
          rw [hb']
          rw [setSq_ne _ fr fc q.1 q.2 none
            (fun hh => hqf (by rw [← hh.1, ← hh.2]))]
          rw [setSq_ne _ tr tc q.1 q.2 (b fr fc)
            (fun hh => hqt (by rw [← hh.1, ← hh.2]))]
        unfold isKingSquare at hq2 ⊢
        rw [hqb] at hq2
        exact hq2
  · intro q1 hq1 q2 hq2 heq
    dsimp only at heq
    simp only [Finset.coe_filter, Set.mem_setOf_eq] at hq1 hq2
    obtain ⟨-, hq1⟩ := hq1
    obtain ⟨-, hq2⟩ := hq2
    by_cases e1 : q1 = (tr, tc) <;> by_cases e2 : q2 = (tr, tc)
    · rw [e1, e2]
    · exfalso
      rw [if_pos e1, if_neg e2] at heq
      rw [← heq] at hq2
      rw [hfromKS] at hq2
      exact Bool.noConfusion hq2
    · exfalso
      rw [if_neg e1, if_pos e2] at heq
      rw [heq] at hq1
      rw [hfromKS] at hq1
      exact Bool.noConfusion hq1
    · rw [if_neg e1, if_neg e2] at heq
      exact heq

/-- C4 (amended): every state reachable from the initial state by accepted
moves of the side to move contains at most one king of each color — the
initial board has exactly one of each and `makeMove` can never duplicate a
king, but an accepted move may capture one (see the counterexample), so
"exactly one" is not an invariant. -/
theorem reachable_kingCount_le_one (s : GameState) (color : Color) (h : Reachable s) :
    kingCount s.board color ≤ 1 := by
  induction h with
  | init =>
      cases color with
      | white => decide
      | black => decide
  | step s' fr fc tr tc hprev hturn hv ih =>
      exact le_trans (kingCount_makeMove_le s' fr fc tr tc color) ih

/-- C4 witness: `reachable_kingCount_le_one` applied to the initial state. -/
theorem reachable_kingCount_le_one_witness :
    kingCount initialGameState.board Color.white ≤ 1 :=
  reachable_kingCount_le_one initialGameState Color.white Reachable.init

/-- The state after white queen takes d8, black pushes the a-pawn, and white
queen captures the black king on e8 — three accepted moves. -/
def s3 : GameState :=
  makeMove (makeMove (makeMove initialGameState 7 3 0 3) 1 0 2 0) 0 3 0 4

/-- C4 counterexample: a state reachable by three accepted moves of the
side to move in which the black king has been captured: the board holds zero
black kings. -/
theorem kingCaptureReachable :
    Reachable s3 ∧ kingCount s3.board Color.black = 0 := by
  constructor
  · exact Reachable.step _ 0 3 0 4
      (Reachable.step _ 1 0 2 0
        (Reachable.step _ 7 3 0 3 Reachable.init (by decide) (by decide))
        (by decide) (by decide))
      (by decide) (by decide)
  · decide

/-- C5 witness: the characterization applied to the initial board. -/
theorem checkmate_iff_check_and_no_escape_witness :
    isCheckmate initializeBoard Color.white = false := by
  cases hx : isCheckmate initializeBoard Color.white with
  | false => rfl
  | true =>
      have h := (checkmate_iff_check_and_no_escape initializeBoard Color.white).mp hx
      have h0 : isCheck initializeBoard Color.white = false := by decide
      rw [h0] at h
      exact Bool.noConfusion h.1
